import Mathlib

/-!
Shallow embedding of the non-parametric baseline module of a
knowledge-graph link-prediction toolkit (`models/baseline.py`), together
with proofs about its co-occurrence and relation-similarity construction,
scoring interface, and benchmark harness.

Machine integers are modelled as `Nat`/`Int`.  The results of the
similarity division (executed in floating point by the source) are
modelled exactly over `ℚ`, extended with the IEEE special values `NaN`
and `+∞` that the source's `0/0` and `x/0` divisions produce; rounding of
finite values is not modelled, and every finite value appearing in a
concrete evaluation here is exactly representable.
-/

/-- A mapped triple `(head, relation, tail)` of integer ids. -/
structure Triple where
  h : ℕ
  r : ℕ
  t : ℕ
  deriving DecidableEq

/-- All ids of a triple are within the entity/relation vocabularies. -/
def validTriple (numEntities numRelations : ℕ) (tr : Triple) : Prop :=
  tr.h < numEntities ∧ tr.r < numRelations ∧ tr.t < numEntities

instance (numEntities numRelations : ℕ) (tr : Triple) :
    Decidable (validTriple numEntities numRelations tr) :=
  inferInstanceAs (Decidable (_ ∧ _ ∧ _))

/-- Error taxonomy of the module.  `indexOverflow` and `assertionFailed`
are `assert` statements in the source; `unsupportedScoringMode` is the
`NotImplementedError` raised by `EvaluationOnlyModel`. -/
inductive PykeenError where
  | unsupportedScoringMode
  | indexOverflow
  | assertionFailed
  deriving DecidableEq

/-- Column `index` of a mapped triple: `0 ↦ head`, `1 ↦ relation`, `2 ↦ tail`. -/
def colVal (tr : Triple) (index : ℕ) : ℕ :=
  if index = 0 then tr.h else if index = 1 then tr.r else tr.t

/-- `_get_max_id`: the number of relations for column index 1, else the
number of entities. -/
def getMaxId (numEntities numRelations index : ℕ) : ℕ :=
  if index = 1 then numRelations else numEntities

/-- Entry `(r, c)` of the sparse co-occurrence matrix `_get_csr_matrix`
builds: a `coo_matrix` with unit data at
`(triples[:, row_index], triples[:, col_index])` accumulates duplicate
coordinates on conversion, so the entry is the number of triples that hit
`(r, c)`. -/
def cooCount (triples : List Triple) (rowIndex colIndex r c : ℕ) : ℕ :=
  triples.countP fun tr => decide (colVal tr rowIndex = r ∧ colVal tr colIndex = c)

/-- Total entry sum of the unnormalized co-occurrence matrix over its full
shape `(getMaxId rowIndex, getMaxId colIndex)`. -/
def cooTotal (triples : List Triple) (numEntities numRelations rowIndex colIndex : ℕ) : ℕ :=
  ∑ r ∈ Finset.range (getMaxId numEntities numRelations rowIndex),
    ∑ c ∈ Finset.range (getMaxId numEntities numRelations colIndex),
      cooCount triples rowIndex colIndex r c

/-- L1 norm of row `r` of the co-occurrence matrix (entries are counts,
hence non-negative). -/
def cooRowSum (triples : List Triple) (numCols rowIndex colIndex r : ℕ) : ℕ :=
  ∑ c ∈ Finset.range numCols, cooCount triples rowIndex colIndex r c

/-- Entry of the matrix returned by `_get_csr_matrix`: the raw count, or
the L1-normalized count when `normalize` is set (zero rows stay all-zero,
as in `sklearn.preprocessing.normalize`). -/
def csrEntry (triples : List Triple) (numCols rowIndex colIndex : ℕ)
    (normalize : Bool) (r c : ℕ) : ℚ :=
  if normalize then
    if cooRowSum triples numCols rowIndex colIndex r = 0 then 0
    else (cooCount triples rowIndex colIndex r c : ℚ) /
      (cooRowSum triples numCols rowIndex colIndex r : ℚ)
  else (cooCount triples rowIndex colIndex r c : ℚ)

/-- `PseudoTypeBaseline.score_t`: for each `(h, r)` row of the batch,
return the dense row `r` of `tail_per_relation`, the matrix built with
`row_index = 1`, `col_index = 2`. -/
def pseudoTypeScoreT (triples : List Triple) (numEntities : ℕ) (normalize : Bool)
    (hrBatch : List (ℕ × ℕ)) : List (List ℚ) :=
  hrBatch.map fun hr =>
    (List.range numEntities).map fun c =>
      csrEntry triples numEntities 1 2 normalize hr.2 c

/-- Exact model of the IEEE float values the similarity division produces:
quotients of machine integers are rationals, `0/0` is `NaN`, and `x/0`
for `x > 0` is `+∞`. -/
inductive FVal where
  | nan
  | inf
  | val (q : ℚ)
  deriving DecidableEq

/-- IEEE division of a non-negative integer numerator by an integer
denominator, as `numpy` executes it on the cast arrays. -/
def fdiv (a : ℕ) (b : ℤ) : FVal :=
  if b = 0 then (if a = 0 then FVal.nan else FVal.inf) else FVal.val ((a : ℚ) / (b : ℚ))

/-- `x < t` as `numpy` evaluates it on floats: comparisons with `NaN` are
false, and `+∞ < t` is false. -/
def fvalLtBool (x : FVal) (t : ℚ) : Bool :=
  match x with
  | FVal.val q => decide (q < t)
  | _ => false

/-- `x` lies in the closed interval `[a, b]` (false for `NaN` and `+∞`). -/
def fvalInRange (x : FVal) (a b : ℚ) : Prop :=
  ∃ q, x = FVal.val q ∧ a ≤ q ∧ q ≤ b

/-- Encoding of an entity pair as a single column index,
`num_entities * head + tail`. -/
def pairCode (numEntities h t : ℕ) : ℕ := numEntities * h + t

/-- Entry `(r, p)` of the sparse relation × entity-pair matrix `r` built
in `_get_relation_similarity`: ones at
`(relation, num_entities * head + tail)` accumulate over duplicate
coordinates, giving occurrence counts. -/
def relPairCount (triples : List Triple) (numEntities r p : ℕ) : ℕ :=
  triples.countP fun tr => decide (tr.r = r ∧ pairCode numEntities tr.h tr.t = p)

/-- Entry `(r, p)` of the swapped matrix `r2` built when `to_inverse` is
set: ones at `(relation, num_entities * tail + head)`. -/
def relPairCountInv (triples : List Triple) (numEntities r p : ℕ) : ℕ :=
  triples.countP fun tr => decide (tr.r = r ∧ pairCode numEntities tr.t tr.h = p)

/-- `cardinality`: row sums of `r` over the `num_entities ** 2` pair
columns (computed from the direct matrix `r` in both orientations). -/
def cardinality (triples : List Triple) (numEntities r : ℕ) : ℕ :=
  ∑ p ∈ Finset.range (numEntities ^ 2), relPairCount triples numEntities r p

/-- `intersection[r1, r2]`: entry of `r @ r2.T`, where `r2` is the swapped
matrix when `toInverse` is set and `r` itself otherwise. -/
def intersectionCount (triples : List Triple) (numEntities : ℕ) (toInverse : Bool)
    (r1 r2 : ℕ) : ℕ :=
  ∑ p ∈ Finset.range (numEntities ^ 2),
    relPairCount triples numEntities r1 p *
      (if toInverse then relPairCountInv triples numEntities r2 p
       else relPairCount triples numEntities r2 p)

/-- `union[r1, r2] = cardinality[r1] + cardinality[r2] - intersection[r1, r2]`. -/
def unionCount (triples : List Triple) (numEntities : ℕ) (toInverse : Bool)
    (r1 r2 : ℕ) : ℤ :=
  (cardinality triples numEntities r1 : ℤ) + (cardinality triples numEntities r2 : ℤ)
    - (intersectionCount triples numEntities toInverse r1 r2 : ℤ)

/-- `sim = intersection / union`, evaluated with IEEE semantics. -/
def simEntry (triples : List Triple) (numEntities : ℕ) (toInverse : Bool)
    (r1 r2 : ℕ) : FVal :=
  fdiv (intersectionCount triples numEntities toInverse r1 r2)
    (unionCount triples numEntities toInverse r1 r2)

/-- `sim[sim < threshold] = 0.0`: entries comparing `< threshold` are
zeroed; `NaN` and `+∞` compare false and survive unchanged. -/
def applyThreshold (threshold : Option ℚ) (x : FVal) : FVal :=
  match threshold with
  | none => x
  | some t => if fvalLtBool x t then FVal.val 0 else x

/-- Entry `(r1, r2)` of the matrix `_get_relation_similarity` returns. -/
def simThresholded (triples : List Triple) (numEntities : ℕ) (threshold : Option ℚ)
    (toInverse : Bool) (r1 r2 : ℕ) : FVal :=
  applyThreshold threshold (simEntry triples numEntities toInverse r1 r2)

/-- An entry is explicitly stored in the CSR representation after
`eliminate_zeros` iff it is not an exact zero (`NaN` and `+∞` are kept). -/
def storedSim (x : FVal) : Prop := x ≠ FVal.val 0

instance (x : FVal) : Decidable (storedSim x) :=
  inferInstanceAs (Decidable (x ≠ FVal.val 0))

/-- `numpy.iinfo(int).max` on a 64-bit platform. -/
def INT64MAX : ℕ := 2 ^ 63 - 1

/-- The guard `assert num_entities * num_relations < numpy.iinfo(int).max`
at the top of `_get_relation_similarity`. -/
def relationSimilarityGuard (numEntities numRelations : ℕ) : Bool :=
  decide (numEntities * numRelations < INT64MAX)

/-- `_get_relation_similarity` with its guard: the failing `assert` aborts
construction; otherwise the thresholded similarity matrix is produced. -/
def getRelationSimilarity (triples : List Triple) (numEntities numRelations : ℕ)
    (toInverse : Bool) (threshold : Option ℚ) :
    Except PykeenError (ℕ → ℕ → FVal) :=
  if relationSimilarityGuard numEntities numRelations then
    .ok fun r1 r2 => simThresholded triples numEntities threshold toInverse r1 r2
  else .error .indexOverflow

/-- The three non-parametric baseline variants. -/
inductive BaselineVariant where
  | pseudoType
  | entityCoOccurrence
  | softInverseTriple
  deriving DecidableEq

/-- `score_hrt` on `EvaluationOnlyModel`, inherited by all three baseline
variants: it raises unconditionally. -/
def scoreHRT (_variant : BaselineVariant) (_hrtBatch : List Triple) :
    Except PykeenError (List ℚ) :=
  .error .unsupportedScoringMode

/-- `score_r` on `EvaluationOnlyModel`, inherited by all three baseline
variants: it raises unconditionally. -/
def scoreR (_variant : BaselineVariant) (_htBatch : List (ℕ × ℕ)) :
    Except PykeenError (List (List ℚ)) :=
  .error .unsupportedScoringMode

/-- The per-trial loop of `_run_trials`: for each `trial` in
`range(trials)`, the body evaluates the remixed dataset (seeded with the
trial index) when `trials != 0`, and the original dataset otherwise. -/
def runTrialsRecords {D R : Type} (trials : ℕ) (dataset : D) (remix : ℕ → D)
    (evalTrial : ℕ → D → R) : List R :=
  (List.range trials).map fun trial =>
    evalTrial trial (if trials ≠ 0 then remix trial else dataset)

/-- The dataset splits as `_evaluate_baseline` consumes them; the
validation split may be absent. -/
structure DatasetSplits where
  training : List Triple
  testing : List Triple
  validation : Option (List Triple)

/-- The arguments `_evaluate_baseline` passes to the external `evaluate`
call: the evaluated triples and the additional filter triple sets. -/
structure EvaluateCall where
  mappedTriples : List Triple
  additionalFilterTriples : List (List Triple)
  deriving DecidableEq

/-- `_evaluate_baseline`: asserts that the validation split is present
before anything else, then calls `evaluate` on the test triples with the
training and validation triples as additional filter triples. -/
def evaluateBaseline (dataset : DatasetSplits) : Except PykeenError EvaluateCall :=
  match dataset.validation with
  | none => .error .assertionFailed
  | some valid =>
      .ok { mappedTriples := dataset.testing,
            additionalFilterTriples := [dataset.training, valid] }

/-- Summing, over all values `c` below a bound, the number of list
elements satisfying `P` whose key `g` equals `c` counts each element
satisfying `P` exactly once, provided every key is below the bound. -/
theorem sum_countP_fiber {α : Type} (P : α → Prop) [DecidablePred P] (l : List α)
    (g : α → ℕ) (n : ℕ) (hg : ∀ a ∈ l, g a < n) :
    ∑ c ∈ Finset.range n, l.countP (fun a => decide (P a ∧ g a = c)) =
      l.countP (fun a => decide (P a)) := by
  induction l with
  | nil => simp
  | cons x l ih =>
    have hx : g x < n := hg x (List.mem_cons_self x l)
    have hl : ∀ a ∈ l, g a < n := fun a ha => hg a (List.mem_cons_of_mem x ha)
    simp only [List.countP_cons, Finset.sum_add_distrib, ih hl, decide_eq_true_eq]
    congr 1
    by_cases hP : P x
    · simp only [hP, true_and]
      rw [Finset.sum_ite_eq]
      simp [Finset.mem_range, hx]
    · simp [hP]

/-- The encoded pair index is below `numEntities ^ 2` for in-range ids. -/
theorem pairCode_lt (numEntities h t : ℕ) (hh : h < numEntities) (ht : t < numEntities) :
    pairCode numEntities h t < numEntities ^ 2 := by
  calc pairCode numEntities h t < numEntities * h + numEntities := by
        unfold pairCode; omega
    _ = numEntities * (h + 1) := by ring
    _ ≤ numEntities * numEntities := Nat.mul_le_mul_left _ hh
    _ = numEntities ^ 2 := (pow_two numEntities).symm

/-- The pair encoding is injective on in-range tails. -/
theorem pairCode_inj {numEntities h1 t1 h2 t2 : ℕ} (ht1 : t1 < numEntities)
    (ht2 : t2 < numEntities)
    (heq : pairCode numEntities h1 t1 = pairCode numEntities h2 t2) :
    h1 = h2 ∧ t1 = t2 := by
  have hE : 0 < numEntities := lt_of_le_of_lt (Nat.zero_le t1) ht1
  unfold pairCode at heq
  have d1 := Nat.mul_add_div hE h1 t1
  have d2 := Nat.mul_add_div hE h2 t2
  rw [Nat.div_eq_of_lt ht1] at d1
  rw [Nat.div_eq_of_lt ht2] at d2
  rw [heq] at d1
  have hh : h1 = h2 := by omega
  refine ⟨hh, ?_⟩
  rw [hh] at heq
  exact Nat.add_left_cancel heq

/-- Two triples agreeing on all three fields are equal. -/
theorem triple_eq_of_fields {a b : Triple} (hh : a.h = b.h) (hr : a.r = b.r)
    (ht : a.t = b.t) : a = b := by
  cases a; cases b; simp_all

/-- A duplicate-free list has at most one element satisfying a predicate
whose satisfiers are pairwise equal. -/
theorem countP_le_one_of_unique {α : Type} {p : α → Bool} {l : List α} (hnd : l.Nodup)
    (huniq : ∀ a ∈ l, ∀ b ∈ l, p a = true → p b = true → a = b) :
    l.countP p ≤ 1 := by
  induction l with
  | nil => simp
  | cons x l ih =>
    rw [List.nodup_cons] at hnd
    rw [List.countP_cons]
    by_cases hp : p x = true
    · have hzero : l.countP p = 0 := by
        rw [List.countP_eq_zero]
        intro a ha hpa
        have hxa : x = a :=
          huniq x (List.mem_cons_self x l) a (List.mem_cons_of_mem x ha) hp hpa
        exact hnd.1 (by rw [hxa]; exact ha)
      simp [hp, hzero]
    · have ihl := ih hnd.2 fun a ha b hb hpa hpb =>
        huniq a (List.mem_cons_of_mem x ha) b (List.mem_cons_of_mem x hb) hpa hpb
      simpa [hp] using ihl

/-- Row sums of the direct pair matrix count the triples of the relation. -/
theorem cardinality_eq_count (triples : List Triple) (numEntities numRelations r : ℕ)
    (hv : ∀ tr ∈ triples, validTriple numEntities numRelations tr) :
    cardinality triples numEntities r = triples.countP (fun tr => decide (tr.r = r)) := by
  unfold cardinality relPairCount
  exact sum_countP_fiber (fun tr => tr.r = r) triples
    (fun tr => pairCode numEntities tr.h tr.t) (numEntities ^ 2)
    (fun tr htr => pairCode_lt _ _ _ (hv tr htr).1 (hv tr htr).2.2)

/-- Row sums of the swapped pair matrix also count the triples of the
relation, hence agree with `cardinality`. -/
theorem sum_relPairCountInv (triples : List Triple) (numEntities numRelations r : ℕ)
    (hv : ∀ tr ∈ triples, validTriple numEntities numRelations tr) :
    ∑ p ∈ Finset.range (numEntities ^ 2), relPairCountInv triples numEntities r p =
      cardinality triples numEntities r := by
  rw [cardinality_eq_count triples numEntities numRelations r hv]
  unfold relPairCountInv
  exact sum_countP_fiber (fun tr => tr.r = r) triples
    (fun tr => pairCode numEntities tr.t tr.h) (numEntities ^ 2)
    (fun tr htr => pairCode_lt _ _ _ (hv tr htr).2.2 (hv tr htr).1)

/-- For in-range, duplicate-free triples, the direct pair matrix has 0/1
entries. -/
theorem relPairCount_le_one (triples : List Triple) (numEntities numRelations r p : ℕ)
    (hv : ∀ tr ∈ triples, validTriple numEntities numRelations tr)
    (hnd : triples.Nodup) : relPairCount triples numEntities r p ≤ 1 := by
  apply countP_le_one_of_unique hnd
  intro a ha b hb hpa hpb
  rw [decide_eq_true_eq] at hpa hpb
  obtain ⟨har, hac⟩ := hpa
  obtain ⟨hbr, hbc⟩ := hpb
  have hinj := pairCode_inj (hv a ha).2.2 (hv b hb).2.2 (hac.trans hbc.symm)
  exact triple_eq_of_fields hinj.1 (har.trans hbr.symm) hinj.2

/-- For in-range, duplicate-free triples, the swapped pair matrix has 0/1
entries. -/
theorem relPairCountInv_le_one (triples : List Triple) (numEntities numRelations r p : ℕ)
    (hv : ∀ tr ∈ triples, validTriple numEntities numRelations tr)
    (hnd : triples.Nodup) : relPairCountInv triples numEntities r p ≤ 1 := by
  apply countP_le_one_of_unique hnd
  intro a ha b hb hpa hpb
  rw [decide_eq_true_eq] at hpa hpb
  obtain ⟨har, hac⟩ := hpa
  obtain ⟨hbr, hbc⟩ := hpb
  have hinj := pairCode_inj (hv a ha).1 (hv b hb).1 (hac.trans hbc.symm)
  exact triple_eq_of_fields hinj.2 (har.trans hbr.symm) hinj.1

/-- The intersection is bounded by the left cardinality. -/
theorem intersectionCount_le_left (triples : List Triple)
    (numEntities numRelations : ℕ) (toInverse : Bool) (r1 r2 : ℕ)
    (hv : ∀ tr ∈ triples, validTriple numEntities numRelations tr)
    (hnd : triples.Nodup) :
    intersectionCount triples numEntities toInverse r1 r2 ≤
      cardinality triples numEntities r1 := by
  unfold intersectionCount cardinality
  apply Finset.sum_le_sum
  intro p _
  have hb : (if toInverse then relPairCountInv triples numEntities r2 p
      else relPairCount triples numEntities r2 p) ≤ 1 := by
    cases toInverse
    · simpa using relPairCount_le_one triples numEntities numRelations r2 p hv hnd
    · simpa using relPairCountInv_le_one triples numEntities numRelations r2 p hv hnd
  calc relPairCount triples numEntities r1 p *
        (if toInverse then relPairCountInv triples numEntities r2 p
         else relPairCount triples numEntities r2 p)
      ≤ relPairCount triples numEntities r1 p * 1 := Nat.mul_le_mul_left _ hb
    _ = relPairCount triples numEntities r1 p := Nat.mul_one _

/-- The intersection is bounded by the right cardinality. -/
theorem intersectionCount_le_right (triples : List Triple)
    (numEntities numRelations : ℕ) (toInverse : Bool) (r1 r2 : ℕ)
    (hv : ∀ tr ∈ triples, validTriple numEntities numRelations tr)
    (hnd : triples.Nodup) :
    intersectionCount triples numEntities toInverse r1 r2 ≤
      cardinality triples numEntities r2 := by
  have h1 : intersectionCount triples numEntities toInverse r1 r2 ≤
      ∑ p ∈ Finset.range (numEntities ^ 2),
        (if toInverse then relPairCountInv triples numEntities r2 p
         else relPairCount triples numEntities r2 p) := by
    unfold intersectionCount
    apply Finset.sum_le_sum
    intro p _
    have ha : relPairCount triples numEntities r1 p ≤ 1 :=
      relPairCount_le_one triples numEntities numRelations r1 p hv hnd
    calc relPairCount triples numEntities r1 p *
          (if toInverse then relPairCountInv triples numEntities r2 p
           else relPairCount triples numEntities r2 p)
        ≤ 1 * (if toInverse then relPairCountInv triples numEntities r2 p
           else relPairCount triples numEntities r2 p) := Nat.mul_le_mul_right _ ha
      _ = _ := Nat.one_mul _
  refine h1.trans ?_
  cases toInverse
  · simp only [Bool.false_eq_true, if_false]
    exact le_of_eq rfl
  · simp only [if_true]
    exact le_of_eq (sum_relPairCountInv triples numEntities numRelations r2 hv)

/-- An unobserved relation has an all-zero row in the pair matrix. -/
theorem relPairCount_eq_zero_of_card (triples : List Triple) (numEntities r : ℕ)
    (hc : cardinality triples numEntities r = 0) (p : ℕ) (hp : p < numEntities ^ 2) :
    relPairCount triples numEntities r p = 0 := by
  have := (Finset.sum_eq_zero_iff).mp hc p (Finset.mem_range.mpr hp)
  exact this

/-- The intersection with an unobserved left relation vanishes. -/
theorem intersectionCount_eq_zero_left (triples : List Triple) (numEntities : ℕ)
    (toInverse : Bool) (r1 r2 : ℕ) (hc : cardinality triples numEntities r1 = 0) :
    intersectionCount triples numEntities toInverse r1 r2 = 0 := by
  unfold intersectionCount
  apply Finset.sum_eq_zero
  intro p hp
  rw [relPairCount_eq_zero_of_card triples numEntities r1 hc p (Finset.mem_range.mp hp),
    Nat.zero_mul]

/-- Column values of in-range triples are inside the matrix shape. -/
theorem colVal_lt_getMaxId (numEntities numRelations : ℕ) (tr : Triple)
    (hv : validTriple numEntities numRelations tr) (index : ℕ) :
    colVal tr index < getMaxId numEntities numRelations index := by
  obtain ⟨h1, h2, h3⟩ := hv
  unfold colVal getMaxId
  by_cases h0 : index = 0
  · simp only [h0]
    norm_num
    exact h1
  · by_cases hone : index = 1
    · simp only [hone]
      norm_num
      exact h2
    · simp only [h0, hone, if_false]
      exact h3

/-- Summing, over all key values below a bound, the number of list
elements with that key counts every element exactly once. -/
theorem sum_countP_key {α : Type} (l : List α) (g : α → ℕ) (n : ℕ)
    (hg : ∀ a ∈ l, g a < n) :
    ∑ c ∈ Finset.range n, l.countP (fun a => decide (g a = c)) = l.length := by
  induction l with
  | nil => simp
  | cons x l ih =>
    have hx : g x < n := hg x (List.mem_cons_self x l)
    have hl : ∀ a ∈ l, g a < n := fun a ha => hg a (List.mem_cons_of_mem x ha)
    simp only [List.countP_cons, Finset.sum_add_distrib, ih hl, decide_eq_true_eq,
      List.length_cons]
    congr 1
    rw [Finset.sum_ite_eq]
    simp [Finset.mem_range, hx]

/-- For in-range, duplicate-free triples every similarity entry is `NaN`
(the `0/0` of two unobserved relations) or a rational in `[0, 1]`. -/
theorem simEntry_nan_or_unit_interval (triples : List Triple)
    (numEntities numRelations : ℕ) (toInverse : Bool) (r1 r2 : ℕ)
    (hv : ∀ tr ∈ triples, validTriple numEntities numRelations tr)
    (hnd : triples.Nodup) :
    simEntry triples numEntities toInverse r1 r2 = FVal.nan ∨
      ∃ q : ℚ, simEntry triples numEntities toInverse r1 r2 = FVal.val q ∧
        0 ≤ q ∧ q ≤ 1 := by
  have hIle1 :=
    intersectionCount_le_left triples numEntities numRelations toInverse r1 r2 hv hnd
  have hIle2 :=
    intersectionCount_le_right triples numEntities numRelations toInverse r1 r2 hv hnd
  by_cases hu0 : unionCount triples numEntities toInverse r1 r2 = 0
  · left
    have hI0 : intersectionCount triples numEntities toInverse r1 r2 = 0 := by
      unfold unionCount at hu0
      omega
    unfold simEntry fdiv
    rw [if_pos hu0, if_pos hI0]
  · right
    have hUpos : 0 < unionCount triples numEntities toInverse r1 r2 := by
      unfold unionCount at hu0 ⊢
      omega
    have hIleU : (intersectionCount triples numEntities toInverse r1 r2 : ℤ) ≤
        unionCount triples numEntities toInverse r1 r2 := by
      unfold unionCount
      omega
    refine ⟨(intersectionCount triples numEntities toInverse r1 r2 : ℚ) /
      (unionCount triples numEntities toInverse r1 r2 : ℚ), ?_, ?_, ?_⟩
    · unfold simEntry fdiv
      rw [if_neg hu0]
    · apply div_nonneg
      · exact Nat.cast_nonneg _
      · exact_mod_cast hUpos.le
    · rw [div_le_one (by exact_mod_cast hUpos)]
      exact_mod_cast hIleU

/-- Claim C1: the source guards `_get_relation_similarity` with
`assert num_entities * num_relations < numpy.iinfo(int).max`, not with a
bound on `num_entities ** 2` as specified.  With `num_entities = 2 ^ 32`
and a single relation the squared entity count (the actual range of the
encoded pair index) exceeds the 64-bit integer range, yet the guard
passes and construction proceeds with no error; conversely with
`num_entities = 2` and `num_relations = 2 ^ 62` the square is tiny, yet
the guard fails. -/
theorem c1_overflow_guard_mismatch :
    relationSimilarityGuard (2 ^ 32) 1 = true ∧
      INT64MAX < (2 ^ 32) ^ 2 ∧
      (∃ f, getRelationSimilarity [⟨2 ^ 32 - 1, 0, 2 ^ 32 - 1⟩] (2 ^ 32) 1 false none =
        Except.ok f) ∧
      relationSimilarityGuard 2 (2 ^ 62) = false ∧
      2 ^ 2 ≤ INT64MAX ∧
      getRelationSimilarity [] 2 (2 ^ 62) false none =
        Except.error PykeenError.indexOverflow := by
  have hok : getRelationSimilarity [⟨2 ^ 32 - 1, 0, 2 ^ 32 - 1⟩] (2 ^ 32) 1 false none =
      Except.ok fun r1 r2 =>
        simThresholded [⟨2 ^ 32 - 1, 0, 2 ^ 32 - 1⟩] (2 ^ 32) none false r1 r2 := by
    unfold getRelationSimilarity
    rw [if_pos (by decide)]
  have herr : getRelationSimilarity [] 2 (2 ^ 62) false none =
      Except.error PykeenError.indexOverflow := by
    unfold getRelationSimilarity
    rw [if_neg (by decide)]
  exact ⟨by decide, by decide, ⟨_, hok⟩, by decide, by decide, herr⟩

/-- Claim C2 counterexample: with the single triple `(0, 0, 1)` over two
entities, relation `1` is unobserved, so its diagonal entry is the `0/0`
case; the code division yields `NaN`, which is not `0`. -/
theorem c2_counterexample_nan_not_zero :
    cardinality [⟨0, 0, 1⟩] 2 1 = 0 ∧
      simEntry [⟨0, 0, 1⟩] 2 false 1 1 = FVal.nan ∧
      FVal.nan ≠ FVal.val 0 := by decide

/-- Claim C2 (amended): every entry with a non-zero denominator equals
`intersection / (cardinality + cardinality - intersection)` exactly; the
`0/0` case of two unobserved relations evaluates to `NaN` (IEEE), not to
`0`. -/
theorem c2_similarity_entry_formula (triples : List Triple) (numEntities : ℕ)
    (toInverse : Bool) (r1 r2 : ℕ) :
    (unionCount triples numEntities toInverse r1 r2 ≠ 0 →
      simEntry triples numEntities toInverse r1 r2 =
        FVal.val ((intersectionCount triples numEntities toInverse r1 r2 : ℚ) /
          (unionCount triples numEntities toInverse r1 r2 : ℚ))) ∧
    (cardinality triples numEntities r1 = 0 → cardinality triples numEntities r2 = 0 →
      simEntry triples numEntities toInverse r1 r2 = FVal.nan) := by
  constructor
  · intro hu
    unfold simEntry fdiv
    rw [if_neg hu]
  · intro h1 h2
    have hi : intersectionCount triples numEntities toInverse r1 r2 = 0 :=
      intersectionCount_eq_zero_left triples numEntities toInverse r1 r2 h1
    have hu : unionCount triples numEntities toInverse r1 r2 = 0 := by
      unfold unionCount
      rw [h1, h2, hi]
      simp
    unfold simEntry fdiv
    rw [if_pos hu, if_pos hi]

/-- Claim C2 witness: the formula instantiated on a concrete triple set,
both for an observed diagonal (non-zero denominator) and for the `0/0`
diagonal of an unobserved relation. -/
theorem c2_similarity_entry_formula_witness :
    (unionCount [⟨0, 0, 1⟩] 2 false 0 0 ≠ 0 ∧
      simEntry [⟨0, 0, 1⟩] 2 false 0 0 =
        FVal.val ((intersectionCount [⟨0, 0, 1⟩] 2 false 0 0 : ℚ) /
          (unionCount [⟨0, 0, 1⟩] 2 false 0 0 : ℚ))) ∧
    (cardinality [⟨0, 0, 1⟩] 2 0 ≠ 0 ∧
      simEntry [⟨0, 0, 1⟩] 2 false 1 1 = FVal.nan) :=
  ⟨⟨by decide, (c2_similarity_entry_formula [⟨0, 0, 1⟩] 2 false 0 0).1 (by decide)⟩,
   ⟨by decide, (c2_similarity_entry_formula [⟨0, 0, 1⟩] 2 false 1 1).2 (by decide) (by decide)⟩⟩

/-- Claim C3 counterexample: with the duplicated triple `(0, 0, 1)`,
relation `0` occurs with encoded pair `1`, so the claimed indicator entry
would be `1`; the built matrix entry is `2`. -/
theorem c3_counterexample_duplicate_triples :
    (∃ tr ∈ [(⟨0, 0, 1⟩ : Triple), ⟨0, 0, 1⟩], tr.r = 0 ∧ pairCode 2 tr.h tr.t = 1) ∧
      relPairCount [⟨0, 0, 1⟩, ⟨0, 0, 1⟩] 2 0 1 = 2 ∧ (2 : ℕ) ≠ 1 := by decide

/-- Claim C3 (amended): the relation × entity-pair matrix entry counts the
triples hitting `(r, p)` with multiplicity; for in-range, duplicate-free
triple sequences this coincides with the claimed 0/1 indicator. -/
theorem c3_indicator_matrix (triples : List Triple)
    (numEntities numRelations r p : ℕ)
    (hv : ∀ tr ∈ triples, validTriple numEntities numRelations tr)
    (hnd : triples.Nodup) :
    relPairCount triples numEntities r p =
      if ∃ tr ∈ triples, tr.r = r ∧ pairCode numEntities tr.h tr.t = p then 1 else 0 := by
  by_cases hex : ∃ tr ∈ triples, tr.r = r ∧ pairCode numEntities tr.h tr.t = p
  · rw [if_pos hex]
    have hpos : 0 < relPairCount triples numEntities r p := by
      rw [relPairCount, List.countP_pos_iff]
      obtain ⟨tr, htr, hc⟩ := hex
      exact ⟨tr, htr, by simpa using hc⟩
    have hle := relPairCount_le_one triples numEntities numRelations r p hv hnd
    omega
  · rw [if_neg hex, relPairCount, List.countP_eq_zero]
    intro a ha
    simp only [decide_eq_true_eq]
    intro hc
    exact hex ⟨a, ha, hc⟩

/-- Claim C3 witness: the indicator equality instantiated on a concrete
duplicate-free triple list. -/
theorem c3_indicator_matrix_witness :
    relPairCount [⟨0, 0, 1⟩] 2 0 1 =
      if ∃ tr ∈ [(⟨0, 0, 1⟩ : Triple)], tr.r = 0 ∧ pairCode 2 tr.h tr.t = 1 then 1
      else 0 :=
  c3_indicator_matrix [⟨0, 0, 1⟩] 2 1 0 1 (by decide) (by decide)

/-- Claim C4 counterexample: with the duplicated triple `(0, 0, 1)`,
relation `0` occurs in the triple sequence, yet its diagonal similarity is
`4 / (2 + 2 - 4) = 4 / 0 = +∞`, not `1` (no threshold configured). -/
theorem c4_counterexample_duplicate_diagonal :
    (∃ tr ∈ [(⟨0, 0, 1⟩ : Triple), ⟨0, 0, 1⟩], tr.r = 0) ∧
      simThresholded [⟨0, 0, 1⟩, ⟨0, 0, 1⟩] 2 none false 0 0 = FVal.inf ∧
      FVal.inf ≠ FVal.val 1 := by decide

/-- Claim C4 (amended): for an in-range, duplicate-free triple sequence,
every relation occurring in it has non-inverse diagonal similarity exactly
`1`, surviving any threshold that is at most `1`. -/
theorem c4_diagonal_one (triples : List Triple) (numEntities numRelations : ℕ)
    (threshold : Option ℚ) (r : ℕ)
    (hv : ∀ tr ∈ triples, validTriple numEntities numRelations tr)
    (hnd : triples.Nodup)
    (hobs : ∃ tr ∈ triples, tr.r = r)
    (hth : ∀ t, threshold = some t → t ≤ 1) :
    simThresholded triples numEntities threshold false r r = FVal.val 1 := by
  have hdiag : intersectionCount triples numEntities false r r =
      cardinality triples numEntities r := by
    unfold intersectionCount cardinality
    apply Finset.sum_congr rfl
    intro p _
    simp only [Bool.false_eq_true, if_false]
    have h1 : relPairCount triples numEntities r p ≤ 1 :=
      relPairCount_le_one triples numEntities numRelations r p hv hnd
    rcases Nat.le_one_iff_eq_zero_or_eq_one.mp h1 with h | h <;> rw [h]
  have hcard : 0 < cardinality triples numEntities r := by
    rw [cardinality_eq_count triples numEntities numRelations r hv,
      List.countP_pos_iff]
    obtain ⟨tr, htr, hr⟩ := hobs
    exact ⟨tr, htr, by simpa using hr⟩
  have hunion : unionCount triples numEntities false r r =
      (cardinality triples numEntities r : ℤ) := by
    unfold unionCount
    rw [hdiag]
    ring
  have hne : unionCount triples numEntities false r r ≠ 0 := by
    rw [hunion]
    exact_mod_cast Nat.pos_iff_ne_zero.mp hcard
  have hc0 : (cardinality triples numEntities r : ℚ) ≠ 0 := by
    exact_mod_cast Nat.pos_iff_ne_zero.mp hcard
  have hsim : simEntry triples numEntities false r r = FVal.val 1 := by
    unfold simEntry fdiv
    rw [if_neg hne, hdiag, hunion]
    congr 1
    push_cast
    exact div_self hc0
  unfold simThresholded
  rw [hsim]
  cases threshold with
  | none => rfl
  | some t =>
    have ht1 : t ≤ 1 := hth t rfl
    show (if fvalLtBool (FVal.val 1) t then FVal.val 0 else FVal.val 1) = FVal.val 1
    have hlt : fvalLtBool (FVal.val 1) t = false := by
      unfold fvalLtBool
      simp [not_lt.mpr ht1]
    rw [hlt]
    simp

/-- Claim C4 witness: diagonal similarity `1` on a concrete triple list
with the source's benchmark threshold `0.97`. -/
theorem c4_diagonal_one_witness :
    simThresholded [⟨0, 0, 1⟩] 2 (some (97 / 100)) false 0 0 = FVal.val 1 :=
  c4_diagonal_one [⟨0, 0, 1⟩] 2 1 (some (97 / 100)) 0 (by decide) (by decide)
    (by decide)
    (by intro t ht
        rw [Option.some_inj] at ht
        rw [← ht]
        norm_num)

/-- Claim C5 counterexample: with the single triple `(0, 0, 1)` and
threshold `0.97`, the `NaN` diagonal of the unobserved relation `1`
survives thresholding (`NaN < t` is false), is kept by
`eliminate_zeros`, and does not lie in `[0.97, 1]`. -/
theorem c5_counterexample_stored_nan :
    storedSim (simThresholded [⟨0, 0, 1⟩] 2 (some (97 / 100)) false 1 1) ∧
      ¬ fvalInRange (simThresholded [⟨0, 0, 1⟩] 2 (some (97 / 100)) false 1 1)
        (97 / 100) 1 := by
  have hS : simThresholded [⟨0, 0, 1⟩] 2 (some (97 / 100)) false 1 1 = FVal.nan := by
    decide
  constructor
  · rw [hS]
    decide
  · rintro ⟨q, hq, -, -⟩
    rw [hS] at hq
    exact FVal.noConfusion hq

/-- Claim C5 (amended): for an in-range, duplicate-free triple sequence
and a configured threshold `t`, every stored entry is either the `NaN` of
a `0/0` diagonal (which survives comparison-based thresholding) or a
rational in `[t, 1]`; finite entries strictly below `t` are zeroed and
dropped from storage. -/
theorem c5_stored_entries_range (triples : List Triple)
    (numEntities numRelations : ℕ) (toInverse : Bool) (r1 r2 : ℕ) (t : ℚ)
    (hv : ∀ tr ∈ triples, validTriple numEntities numRelations tr)
    (hnd : triples.Nodup) :
    (storedSim (simThresholded triples numEntities (some t) toInverse r1 r2) →
      simThresholded triples numEntities (some t) toInverse r1 r2 = FVal.nan ∨
        fvalInRange (simThresholded triples numEntities (some t) toInverse r1 r2) t 1) ∧
    (∀ q : ℚ, simEntry triples numEntities toInverse r1 r2 = FVal.val q → q < t →
      ¬ storedSim (simThresholded triples numEntities (some t) toInverse r1 r2)) := by
  have hcase := simEntry_nan_or_unit_interval triples numEntities numRelations
    toInverse r1 r2 hv hnd
  constructor
  · intro hst
    rcases hcase with hnan | ⟨q, hq, hq0, hq1⟩
    · left
      unfold simThresholded
      rw [hnan]
      rfl
    · have hres : simThresholded triples numEntities (some t) toInverse r1 r2 =
          if q < t then FVal.val 0 else FVal.val q := by
        show applyThreshold (some t) (simEntry triples numEntities toInverse r1 r2) = _
        rw [hq]
        show (if fvalLtBool (FVal.val q) t then FVal.val 0 else FVal.val q) = _
        unfold fvalLtBool
        by_cases hlt : q < t
        · simp [hlt]
        · simp [hlt]
      by_cases hlt : q < t
      · exfalso
        rw [hres, if_pos hlt] at hst
        exact hst rfl
      · right
        rw [hres, if_neg hlt]
        exact ⟨q, rfl, not_lt.mp hlt, hq1⟩
  · intro q hq hlt hst
    have hres : simThresholded triples numEntities (some t) toInverse r1 r2 =
        FVal.val 0 := by
      show applyThreshold (some t) (simEntry triples numEntities toInverse r1 r2) = _
      rw [hq]
      show (if fvalLtBool (FVal.val q) t then FVal.val 0 else FVal.val q) = _
      unfold fvalLtBool
      simp [hlt]
    rw [hres] at hst
    exact hst rfl

/-- Claim C5 witness: the stored-entry range statement instantiated on a
concrete stored entry (the surviving `NaN` diagonal). -/
theorem c5_stored_entries_range_witness :
    simThresholded [⟨0, 0, 1⟩] 2 (some (1 / 2)) false 1 1 = FVal.nan ∨
      fvalInRange (simThresholded [⟨0, 0, 1⟩] 2 (some (1 / 2)) false 1 1) (1 / 2) 1 :=
  (c5_stored_entries_range [⟨0, 0, 1⟩] 2 1 false 1 1 (1 / 2) (by decide)
    (by decide)).1 (by decide)

/-- Claim C6: the total entry sum of the unnormalized co-occurrence matrix
equals the number of triples — scatter-add accumulates duplicates and no
triple is lost, provided ids are in range and the roles differ (the
builder's `assert`). -/
theorem c6_cooccurrence_total_sum (triples : List Triple)
    (numEntities numRelations rowIndex colIndex : ℕ)
    (hrc : rowIndex ≠ colIndex)
    (hv : ∀ tr ∈ triples, validTriple numEntities numRelations tr) :
    cooTotal triples numEntities numRelations rowIndex colIndex = triples.length := by
  have hrow : ∀ tr ∈ triples,
      colVal tr rowIndex < getMaxId numEntities numRelations rowIndex :=
    fun tr htr => colVal_lt_getMaxId numEntities numRelations tr (hv tr htr) rowIndex
  have hcol : ∀ tr ∈ triples,
      colVal tr colIndex < getMaxId numEntities numRelations colIndex :=
    fun tr htr => colVal_lt_getMaxId numEntities numRelations tr (hv tr htr) colIndex
  unfold cooTotal cooCount
  calc ∑ r ∈ Finset.range (getMaxId numEntities numRelations rowIndex),
        ∑ c ∈ Finset.range (getMaxId numEntities numRelations colIndex),
          triples.countP (fun tr => decide (colVal tr rowIndex = r ∧ colVal tr colIndex = c))
      = ∑ r ∈ Finset.range (getMaxId numEntities numRelations rowIndex),
          triples.countP (fun tr => decide (colVal tr rowIndex = r)) := by
        apply Finset.sum_congr rfl
        intro r _
        exact sum_countP_fiber (fun tr => colVal tr rowIndex = r) triples
          (fun tr => colVal tr colIndex) _ hcol
    _ = triples.length :=
        sum_countP_key triples (fun tr => colVal tr rowIndex) _ hrow

/-- Claim C6 witness: the total sum on a concrete triple list containing a
duplicate pair, for the relation → tail matrix. -/
theorem c6_cooccurrence_total_sum_witness :
    cooTotal [⟨0, 0, 1⟩, ⟨1, 1, 0⟩, ⟨1, 1, 0⟩] 2 2 1 2 = 3 :=
  c6_cooccurrence_total_sum [⟨0, 0, 1⟩, ⟨1, 1, 0⟩, ⟨1, 1, 0⟩] 2 2 1 2
    (by decide) (by decide)

/-- Claim C7: for every baseline variant and every batch, scoring a fully
specified triple (`score_hrt`) or scoring by relation (`score_r`) fails
with the unsupported-scoring-mode error. -/
theorem c7_unsupported_scoring (variant : BaselineVariant) (hrtBatch : List Triple)
    (htBatch : List (ℕ × ℕ)) :
    scoreHRT variant hrtBatch = Except.error PykeenError.unsupportedScoringMode ∧
      scoreR variant htBatch = Except.error PykeenError.unsupportedScoringMode :=
  ⟨rfl, rfl⟩

/-- Claim C8: `PseudoTypeBaseline.score_t` depends only on the relation
column of the batch — two batches agreeing on their relation columns give
identical score matrices — and each output row is exactly the dense row
`r` of the `tail_per_relation` matrix. -/
theorem c8_pseudo_type_ignores_head (triples : List Triple) (numEntities : ℕ)
    (normalize : Bool) (b1 b2 : List (ℕ × ℕ))
    (hrel : b1.map Prod.snd = b2.map Prod.snd) :
    pseudoTypeScoreT triples numEntities normalize b1 =
        pseudoTypeScoreT triples numEntities normalize b2 ∧
      pseudoTypeScoreT triples numEntities normalize b1 =
        (b1.map Prod.snd).map fun r =>
          (List.range numEntities).map fun c =>
            csrEntry triples numEntities 1 2 normalize r c := by
  have key : ∀ b : List (ℕ × ℕ), pseudoTypeScoreT triples numEntities normalize b =
      (b.map Prod.snd).map fun r =>
        (List.range numEntities).map fun c =>
          csrEntry triples numEntities 1 2 normalize r c := by
    intro b
    unfold pseudoTypeScoreT
    rw [List.map_map]
    rfl
  exact ⟨by rw [key b1, key b2, hrel], key b1⟩

/-- Claim C8 witness: two concrete batches with equal relation columns but
different head columns receive identical score matrices. -/
theorem c8_pseudo_type_ignores_head_witness :
    pseudoTypeScoreT [⟨0, 0, 1⟩] 2 true [(0, 0), (5, 1)] =
        pseudoTypeScoreT [⟨0, 0, 1⟩] 2 true [(3, 0), (7, 1)] ∧
      pseudoTypeScoreT [⟨0, 0, 1⟩] 2 true [(0, 0), (5, 1)] =
        ([(0, 0), (5, 1)].map Prod.snd).map fun r =>
          (List.range 2).map fun c => csrEntry [⟨0, 0, 1⟩] 2 1 2 true r c :=
  c8_pseudo_type_ignores_head [⟨0, 0, 1⟩] 2 true [(0, 0), (5, 1)] [(3, 0), (7, 1)]
    (by decide)

/-- Claim C9: in the per-unit trial loop of `_run_trials`, the guard
`trials != 0` is true whenever the loop body runs (the loop ranges over
`range(trials)`), so every executed trial evaluates the dataset remixed
with its trial index and the original-dataset branch is unreachable. -/
theorem c9_trial_guard_always_true {D R : Type} (trials : ℕ) (dataset : D)
    (remix : ℕ → D) (evalTrial : ℕ → D → R) :
    runTrialsRecords trials dataset remix evalTrial =
      (List.range trials).map fun trial => evalTrial trial (remix trial) := by
  unfold runTrialsRecords
  by_cases h : trials = 0
  · simp [h]
  · simp [h]

/-- Claim C10: `_evaluate_baseline` fails on its assertion, before any
evaluation call, whenever the dataset has no validation split; otherwise
the additional filter triples passed to the evaluator are exactly the
training and validation triple sets. -/
theorem c10_validation_required (dataset : DatasetSplits) :
    (dataset.validation = none →
      evaluateBaseline dataset = Except.error PykeenError.assertionFailed) ∧
    ∀ valid, dataset.validation = some valid →
      evaluateBaseline dataset =
        Except.ok ⟨dataset.testing, [dataset.training, valid]⟩ := by
  constructor
  · intro h
    unfold evaluateBaseline
    rw [h]
  · intro valid h
    unfold evaluateBaseline
    rw [h]

/-- Claim C10 witness: both branches on concrete datasets. -/
theorem c10_validation_required_witness :
    evaluateBaseline ⟨[⟨0, 0, 1⟩], [⟨1, 0, 1⟩], none⟩ =
        Except.error PykeenError.assertionFailed ∧
      evaluateBaseline ⟨[⟨0, 0, 1⟩], [⟨1, 0, 1⟩], some [⟨0, 1, 1⟩]⟩ =
        Except.ok ⟨[⟨1, 0, 1⟩], [[⟨0, 0, 1⟩], [⟨0, 1, 1⟩]]⟩ :=
  ⟨(c10_validation_required ⟨[⟨0, 0, 1⟩], [⟨1, 0, 1⟩], none⟩).1 rfl,
   (c10_validation_required ⟨[⟨0, 0, 1⟩], [⟨1, 0, 1⟩], some [⟨0, 1, 1⟩]⟩).2
     [⟨0, 1, 1⟩] rfl⟩

